import Mathlib

/-!
Verification of the `multirun` process supervisor (Go, `main.go`).

The development shallowly embeds the pure core of the program:

* `isChained` — the command validator (`isChained` in `main.go`), a
  left-to-right scan over the characters of a command tracking a current
  quote character and an escape flag;
* `isNormalExit` — the exit classifier (`isNormalExit` in `main.go`),
  a match over the observable termination information of a child;
* `shutdown` — the group-kill broadcast (`shutdown` in `main.go`),
  iterating the still-alive subprocesses and signalling each one's
  process group at the negated pid, with a kill-result oracle standing
  in for the operating system;
* `startSubprocesses`, `handleEvents`, `run` — the launch phase, the
  supervision loop and the top-level control flow of `main`, with spawn
  results and the interleaving of completion events and received
  signals supplied as explicit inputs.
-/

namespace Multirun

/-- The backslash character, written via its code point. -/
def bslash : Char := Char.ofNat 92

/-- The single-quote character, written via its code point. -/
def squote : Char := Char.ofNat 39

/-- The double-quote character, written via its code point. -/
def dquote : Char := Char.ofNat 34

/-- One step of `isChained`'s scan, performed with explicit state:
the current quote character (`none` when outside quotes) and the
escape flag.  Mirrors the loop body of `isChained` in `main.go`:
the escape flag is consulted first, then a backslash sets it, then the
quote state is consulted, and only outside quotes are quote openers and
the operators `;`, `|`, `&` recognised. -/
def isChainedAux : Option Char → Bool → List Char → Bool
  | _, _, [] => false
  | q, true, _ :: rest => isChainedAux q false rest
  | q, false, r :: rest =>
    if r = bslash then isChainedAux q true rest
    else
      match q with
      | some qc =>
        if r = qc then isChainedAux none false rest
        else isChainedAux (some qc) false rest
      | none =>
        if r = squote ∨ r = dquote then isChainedAux (some r) false rest
        else if r = ';' ∨ r = '|' ∨ r = '&' then true
        else isChainedAux none false rest

/-- `isChained` from `main.go`: does the command contain an unquoted,
unescaped shell operator `;`, `|` or `&`?  The scan starts outside any
quote with the escape flag clear. -/
def isChained (command : List Char) : Bool :=
  isChainedAux none false command

/-- Is a character one of the three shell control operators the
validator rejects? -/
def isOp (r : Char) : Bool :=
  r = ';' ∨ r = '|' ∨ r = '&'

/-- The quote/escape automaton underlying `isChained`'s scan, as a pure
state-transition function (state: current quote, escape flag).  It
performs exactly the state updates of the loop in `main.go`; characters
that trigger the early `return true` leave the state unchanged there,
as they do here. -/
def qstep : Option Char × Bool → Char → Option Char × Bool
  | (q, true), _ => (q, false)
  | (q, false), r =>
    if r = bslash then (q, true)
    else
      match q with
      | some qc => if r = qc then (none, false) else (some qc, false)
      | none =>
        if r = squote ∨ r = dquote then (some r, false)
        else (none, false)

/-- The scanner state reached after consuming a list of characters,
starting outside any quote with the escape flag clear. -/
def scanState (cs : List Char) : Option Char × Bool :=
  cs.foldl qstep (none, false)

/-- Modelled from the claim wording for the validator's quote handling
(not from the source): a backslash escapes the following character only
when it occurs outside a quote; inside a single- or double-quote every
character other than the matching quote character is inert, including
backslash, and only the matching quote character closes the quote. -/
def chainScanSpec : Option Char → Bool → List Char → Bool
  | _, _, [] => false
  | some qc, _, r :: rest =>
    if r = qc then chainScanSpec none false rest
    else chainScanSpec (some qc) false rest
  | none, true, _ :: rest => chainScanSpec none false rest
  | none, false, r :: rest =>
    if r = bslash then chainScanSpec none true rest
    else if r = squote ∨ r = dquote then chainScanSpec (some r) false rest
    else if r = ';' ∨ r = '|' ∨ r = '&' then true
    else chainScanSpec none false rest

/-- The validator as the claim describes it, scanning from the initial
state with the quote handling of `chainScanSpec`. -/
def isChainedSpec (command : List Char) : Bool :=
  chainScanSpec none false command

/-- Signal number of SIGINT (`syscall.SIGINT`). -/
def SIGINT : Nat := 2

/-- Signal number of SIGTERM (`syscall.SIGTERM`). -/
def SIGTERM : Nat := 15

/-- The wait status of a completed child as `isNormalExit` in `main.go`
inspects it through `syscall.WaitStatus`: the child exited with a
status code (`ws.Exited()`), was terminated by a signal
(`ws.Signaled()`), or neither (an unrecognised encoding such as a stop
notification). -/
inductive WaitStatus where
  | exited (code : Int)
  | signaled (sig : Nat)
  | other
  deriving DecidableEq

/-- The value `cmd.Wait()` delivers for a child, as `isNormalExit` in
`main.go` discriminates it: no error (exit status zero), an
`*exec.ExitError` wrapping a `syscall.WaitStatus`, an
`*exec.ExitError` whose `Sys()` is not a `syscall.WaitStatus`, or some
other error that is not an `*exec.ExitError` at all. -/
inductive WaitResult where
  | ok
  | exitError (ws : WaitStatus)
  | exitErrorNonWait
  | otherError
  deriving DecidableEq

/-- `isNormalExit` from `main.go`: a nil wait error is normal; an error
that is not an `*exec.ExitError`, or whose `Sys()` is not a
`syscall.WaitStatus`, is abnormal; an exit is normal exactly for status
code 0; a signal death is normal exactly for SIGINT and SIGTERM; any
remaining wait-status encoding is abnormal. -/
def isNormalExit : WaitResult → Bool
  | .ok => true
  | .otherError => false
  | .exitErrorNonWait => false
  | .exitError (.exited code) => code == 0
  | .exitError (.signaled sig) => sig == SIGINT || sig == SIGTERM
  | .exitError .other => false

/-- State kept for one launched child (`subprocess` in `main.go`): its
pid, the original command string, the `up` flag, and whether its
tracked error is set after event processing (`proc.err != nil`, the
flag the final aggregation reads). -/
structure Subprocess where
  pid : Nat
  command : List Char
  up : Bool
  errFlag : Bool
  deriving DecidableEq

/-- One command handed to the launcher, together with the outcome the
operating system would give its `cmd.Start()` call: `none` when the
spawn fails, `some pid` when it succeeds and yields that pid. -/
structure Cmd where
  command : List Char
  spawnPid : Option Nat
  deriving DecidableEq

/-- `startSubprocesses` from `main.go`: iterate the commands in order;
a chained command aborts the whole loop with a non-nil error (modelled
by the `Bool` component); a failed spawn is skipped and iteration
continues; a successful spawn records a `subprocess` entry with
`up = true`.  The recorded entries are returned in launch order. -/
def startSubprocesses : List Cmd → List Subprocess × Bool
  | [] => ([], false)
  | c :: cs =>
    if isChained c.command then ([], true)
    else
      match c.spawnPid with
      | none => startSubprocesses cs
      | some pid =>
        let r := startSubprocesses cs
        (⟨pid, c.command, true, false⟩ :: r.1, r.2)

/-- The error `syscall.Kill` can report for one delivery: the target no
longer exists (`ESRCH`) or any other failure. -/
inductive KillError where
  | esrch
  | other
  deriving DecidableEq

/-- `shutdown` from `main.go`: iterate the subprocess entries, and for
each one still `up` send the signal to its process group at address
`-pid`; the kill-result oracle stands in for `syscall.Kill`.  Returns
the addresses signalled, in order, and the pids whose delivery failure
is reported (an error that is present and is not `ESRCH`). -/
def shutdown (procs : List Subprocess) (sig : Nat)
    (killRes : Int → Option KillError) : List Int × List Nat :=
  match procs with
  | [] => ([], [])
  | p :: ps =>
    let r := shutdown ps sig killRes
    if p.up then
      match killRes (-(p.pid : Int)) with
      | some e =>
        if e ≠ KillError.esrch then (-(p.pid : Int) :: r.1, p.pid :: r.2)
        else (-(p.pid : Int) :: r.1, r.2)
      | none => (-(p.pid : Int) :: r.1, r.2)
    else r

/-- An event consumed by the supervision loop: a completion event from
the waiter of the child with the given pid, or an OS signal delivered
to the supervisor. -/
inductive Event where
  | exit (pid : Nat)
  | signal (sig : Nat)
  deriving DecidableEq

/-- The mutable state of `handleEvents`: the subprocess entries, the
`runningProcesses` counter, the `closing` flag, and a log of the
broadcasts issued (signal sent and addresses signalled). -/
structure LoopState where
  procs : List Subprocess
  running : Nat
  closing : Bool
  broadcasts : List (Nat × List Int)
  deriving DecidableEq

/-- Marking the subprocess with the given pid as exited: `up` becomes
false and its error flag records the classification of its wait
result. -/
def setExited (procs : List Subprocess) (pid : Nat) (bad : Bool) : List Subprocess :=
  procs.map fun p => if p.pid = pid then ⟨p.pid, p.command, false, bad⟩ else p

/-- One iteration of the `select` in `handleEvents` from `main.go`.  A
completion event decrements the counter, marks the child down,
classifies it via `isNormalExit`, and — if `closing` was not yet set —
sets it and broadcasts SIGTERM (the child is already marked down when
the broadcast runs).  A received signal, if `closing` was not yet set,
sets it and broadcasts the received signal itself; otherwise it is
drained with no effect. -/
def stepEvent (results : Nat → WaitResult) (killRes : Int → Option KillError)
    (st : LoopState) : Event → LoopState
  | .exit pid =>
    let bad := !isNormalExit (results pid)
    let procs := setExited st.procs pid bad
    if st.closing then
      ⟨procs, st.running - 1, true, st.broadcasts⟩
    else
      ⟨procs, st.running - 1, true,
        st.broadcasts ++ [(SIGTERM, (shutdown procs SIGTERM killRes).1)]⟩
  | .signal sig =>
    if st.closing then st
    else
      ⟨st.procs, st.running, true,
        st.broadcasts ++ [(sig, (shutdown st.procs sig killRes).1)]⟩

/-- The supervision loop of `handleEvents` from `main.go`: process the
incoming events one at a time while `runningProcesses > 0`; once the
counter reaches zero the loop exits and later events are left
unconsumed. -/
def handleEvents (results : Nat → WaitResult) (killRes : Int → Option KillError)
    (st : LoopState) : List Event → LoopState
  | [] => st
  | e :: es =>
    if st.running = 0 then st
    else handleEvents results killRes (stepEvent results killRes st e) es

/-- The final aggregation at the bottom of `handleEvents`: had any
subprocess a recorded error? -/
def hadErrors (procs : List Subprocess) : Bool :=
  procs.any (·.errFlag)

/-- The observable outcome of one supervisor run: the process exit
code, whether the event loop was entered, the subprocess entries
recorded by the launch phase, and the broadcasts issued. -/
structure RunResult where
  exitCode : Nat
  enteredLoop : Bool
  started : List Subprocess
  broadcasts : List (Nat × List Int)
  deriving DecidableEq

/-- `main` from `main.go` after flag parsing: no commands is a usage
error (exit 2); a validation error from the launch phase exits 2; an
empty subprocess map exits 1 without entering the loop; otherwise the
loop runs and `hadErrors` decides between exit 1 and exit 0. -/
def run (cmds : List Cmd) (events : List Event) (results : Nat → WaitResult)
    (killRes : Int → Option KillError) : RunResult :=
  if cmds = [] then ⟨2, false, [], []⟩
  else if (startSubprocesses cmds).2 then ⟨2, false, (startSubprocesses cmds).1, []⟩
  else if (startSubprocesses cmds).1 = [] then ⟨1, false, [], []⟩
  else
    ⟨if hadErrors (handleEvents results killRes
          ⟨(startSubprocesses cmds).1, (startSubprocesses cmds).1.length, false, []⟩
          events).procs
        then 1 else 0,
      true, (startSubprocesses cmds).1,
      (handleEvents results killRes
          ⟨(startSubprocesses cmds).1, (startSubprocesses cmds).1.length, false, []⟩
          events).broadcasts⟩

/-- The pid carried by a completion event, if any. -/
def exitPid? : Event → Option Nat
  | .exit pid => some pid
  | .signal _ => none

/-- The pids of the completion events of an event list, in order. -/
def exitPids (events : List Event) : List Nat :=
  events.filterMap exitPid?

/-- Splitting a cons cell `r :: rest` at some position: either the
split is at the head, or it is a split of the tail shifted by one. -/
lemma exists_split_cons (r : Char) (rest : List Char) (P : Char → List Char → Prop) :
    (∃ pre c suf, r :: rest = pre ++ c :: suf ∧ P c pre) ↔
      P r [] ∨ ∃ pre c suf, rest = pre ++ c :: suf ∧ P c (r :: pre) := by
  constructor
  · rintro ⟨pre, c, suf, heq, hP⟩
    cases pre with
    | nil =>
      simp only [List.nil_append, List.cons.injEq] at heq
      exact Or.inl (by rw [heq.1]; exact hP)
    | cons p pre =>
      simp only [List.cons_append, List.cons.injEq] at heq
      refine Or.inr ⟨pre, c, suf, heq.2, ?_⟩
      rw [heq.1]; exact hP
  · rintro (hP | ⟨pre, c, suf, heq, hP⟩)
    · exact ⟨[], r, rest, rfl, hP⟩
    · exact ⟨r :: pre, c, suf, by rw [heq, List.cons_append], hP⟩

/-- The scan of `isChained` returns `true` from a given state exactly
when the remaining input splits around an operator character whose
prefix drives the automaton `qstep` to the outside-quote, unescaped
state. -/
lemma isChainedAux_iff : ∀ (cs : List Char) (q : Option Char) (e : Bool),
    isChainedAux q e cs = true ↔
      ∃ pre c suf, cs = pre ++ c :: suf ∧ isOp c = true ∧
        pre.foldl qstep (q, e) = (none, false) := by
  intro cs
  induction cs with
  | nil => intro q e; simp [isChainedAux]
  | cons r rest ih =>
    intro q e
    rw [exists_split_cons r rest
      (fun c pre => isOp c = true ∧ pre.foldl qstep (q, e) = (none, false))]
    cases e with
    | true =>
      have hq : ¬ ((q, true) = ((none : Option Char), false)) := by simp
      simp only [isChainedAux, List.foldl_nil, List.foldl_cons, qstep, hq, and_false,
        false_or]
      exact ih q false
    | false =>
      by_cases hb : r = bslash
      · subst hb
        have hop : isOp bslash = false := by decide
        simp only [isChainedAux, if_pos rfl, List.foldl_nil, List.foldl_cons, qstep,
          hop, Bool.false_eq_true, false_and, false_or]
        exact ih q true
      · cases q with
        | some qc =>
          have hq : ¬ (((some qc : Option Char), false) = ((none : Option Char), false)) := by
            simp
          by_cases hc : r = qc
          · subst hc
            simp only [isChainedAux, if_neg hb, if_pos rfl, List.foldl_nil,
              List.foldl_cons, qstep, hq, and_false, false_or]
            exact ih none false
          · simp only [isChainedAux, if_neg hb, if_neg hc, List.foldl_nil,
              List.foldl_cons, qstep, hq, and_false, false_or]
            exact ih (some qc) false
        | none =>
          by_cases hquo : r = squote ∨ r = dquote
          · have hop : isOp r = false := by
              rcases hquo with h | h <;> subst h <;> decide
            simp only [isChainedAux, if_neg hb, if_pos hquo, List.foldl_nil,
              List.foldl_cons, qstep, hop, Bool.false_eq_true, false_and, false_or]
            exact ih (some r) false
          · by_cases hop : r = ';' ∨ r = '|' ∨ r = '&'
            · have hOp : isOp r = true := by
                simp [isOp, hop]
              simp only [isChainedAux, if_neg hb, if_neg hquo, if_pos hop,
                List.foldl_nil, hOp, true_and, and_self, true_or]
            · have hOp : isOp r = false := by
                simp [isOp, hop]
              simp only [isChainedAux, if_neg hb, if_neg hquo, if_neg hop,
                List.foldl_nil, List.foldl_cons, qstep, hOp, Bool.false_eq_true,
                false_and, false_or]
              exact ih none false

/-- C1: `isChained` returns `true` if and only if the command contains
one of the operator characters `;`, `|`, `&` at a position that the
quote/escape automaton reaches outside any quoted span with the escape
flag clear; in particular a command in which every such operator sits
inside quotes or behind an unescaped backslash — so that no prefix
ending at an operator leaves the automaton unquoted and unescaped —
scans to the end and yields `false`. -/
theorem isChained_iff_unquoted_operator (command : List Char) :
    isChained command = true ↔
      ∃ pre c suf, command = pre ++ c :: suf ∧ isOp c = true ∧
        scanState pre = (none, false) := by
  unfold isChained scanState
  exact isChainedAux_iff command none false

/-- C6 counterexample: on the four-character command `"\";` the code's
scanner treats the backslash inside the double quote as an escape, so
the second double quote does not close the quote and the semicolon is
quoted (`isChained` = `false`); under the claim's reading the backslash
is inert inside the quote, the second double quote closes it, and the
semicolon is an unquoted operator (`true`). -/
theorem backslash_in_quote_counterexample :
    isChained [dquote, bslash, dquote, ';'] = false ∧
    isChainedSpec [dquote, bslash, dquote, ';'] = true := by
  decide

/-- C6 (amended): a backslash escapes the following character wherever
it occurs — inside a quote as well as outside — because the scan
consults the escape flag and the backslash before the quote state;
inside a single- or double-quote every character other than the
matching quote character and backslash is inert, and the matching quote
character (unescaped) closes the quote. -/
theorem escape_and_quote_stepping (q : Char) (hq : q = squote ∨ q = dquote)
    (r : Char) (rest : List Char) (hrq : r ≠ q) (hrb : r ≠ bslash) :
    (isChainedAux (some q) false (bslash :: r :: rest) =
        isChainedAux (some q) false rest) ∧
    (isChainedAux none false (bslash :: r :: rest) =
        isChainedAux none false rest) ∧
    (isChainedAux (some q) false (r :: rest) =
        isChainedAux (some q) false rest) ∧
    (isChainedAux (some q) false (q :: rest) = isChainedAux none false rest) := by
  have hqb : q ≠ bslash := by
    rcases hq with h | h <;> subst h <;> decide
  refine ⟨?_, ?_, ?_, ?_⟩
  · simp [isChainedAux]
  · simp [isChainedAux]
  · simp [isChainedAux, hrb, hrq]
  · simp [isChainedAux, hqb]

/-- Witness for the amended C6 theorem at `q` = double quote,
`r` = `a`. -/
theorem escape_and_quote_stepping_witness :
    (isChainedAux (some dquote) false (bslash :: 'a' :: [';']) =
        isChainedAux (some dquote) false [';']) ∧
    (isChainedAux none false (bslash :: 'a' :: [';']) =
        isChainedAux none false [';']) ∧
    (isChainedAux (some dquote) false ('a' :: [';']) =
        isChainedAux (some dquote) false [';']) ∧
    (isChainedAux (some dquote) false (dquote :: [';']) =
        isChainedAux none false [';']) :=
  escape_and_quote_stepping dquote (Or.inr rfl) 'a' [';']
    (by decide) (by decide)

/-- Scanning a concatenation: when the scan of the first part finds no
operator, scanning the concatenation continues into the second part
from the automaton state reached at the end of the first. -/
lemma isChainedAux_append (pre suf : List Char) : ∀ (q : Option Char) (e : Bool),
    isChainedAux q e pre = false →
    isChainedAux q e (pre ++ suf) =
      isChainedAux (pre.foldl qstep (q, e)).1 (pre.foldl qstep (q, e)).2 suf := by
  induction pre with
  | nil => intro q e _; simp
  | cons r rest ih =>
    intro q e h
    cases e with
    | true =>
      simp only [isChainedAux, List.cons_append, List.foldl_cons, qstep] at h ⊢
      exact ih q false h
    | false =>
      by_cases hb : r = bslash
      · subst hb
        simp only [isChainedAux, if_pos rfl, List.cons_append, List.foldl_cons,
          qstep] at h ⊢
        exact ih q true h
      · cases q with
        | some qc =>
          by_cases hc : r = qc
          · subst hc
            simp only [isChainedAux, if_neg hb, if_pos rfl, List.cons_append,
              List.foldl_cons, qstep] at h ⊢
            exact ih none false h
          · simp only [isChainedAux, if_neg hb, if_neg hc, List.cons_append,
              List.foldl_cons, qstep] at h ⊢
            exact ih (some qc) false h
        | none =>
          by_cases hquo : r = squote ∨ r = dquote
          · simp only [isChainedAux, if_neg hb, if_pos hquo, List.cons_append,
              List.foldl_cons, qstep] at h ⊢
            exact ih (some r) false h
          · by_cases hop : r = ';' ∨ r = '|' ∨ r = '&'
            · simp only [isChainedAux, if_neg hb, if_neg hquo, if_pos hop] at h
              exact absurd h (by decide)
            · simp only [isChainedAux, if_neg hb, if_neg hquo, if_neg hop,
                List.cons_append, List.foldl_cons, qstep] at h ⊢
              exact ih none false h

/-- While every prefix of the remaining input keeps the automaton
inside the quote `q`, the scan can never report an operator: operators
are only recognised outside quotes. -/
lemma isChainedAux_in_quote : ∀ (rest : List Char) (q : Char) (e : Bool),
    (∀ k, k ≤ rest.length → ((rest.take k).foldl qstep (some q, e)).1 = some q) →
    isChainedAux (some q) e rest = false := by
  intro rest
  induction rest with
  | nil => intro q e _; cases e <;> rfl
  | cons r rest ih =>
    intro q e h
    cases e with
    | true =>
      simp only [isChainedAux]
      apply ih q false
      intro k hk
      have hx := h (k + 1) (by simpa using Nat.succ_le_succ hk)
      simpa [qstep] using hx
    | false =>
      by_cases hb : r = bslash
      · subst hb
        simp only [isChainedAux, if_pos rfl]
        apply ih q true
        intro k hk
        have hx := h (k + 1) (by simpa using Nat.succ_le_succ hk)
        simpa [qstep] using hx
      · by_cases hc : r = q
        · exfalso
          have hx := h 1 (by simp)
          subst hc
          simp [qstep, hb] at hx
        · simp only [isChainedAux, if_neg hb, if_neg hc]
          apply ih q false
          intro k hk
          have hx := h (k + 1) (by simpa using Nat.succ_le_succ hk)
          simpa [qstep, hb, hc] using hx

/-- C10: when a single or double quote is opened at a point where the
scanner is outside quotes and unescaped, and no later character closes
it (the automaton stays inside that quote for every prefix of the
remainder), everything after the opening quote counts as quoted; so if
the prefix before the quote contains no unquoted unescaped operator,
`isChained` returns `false` for the whole command. -/
theorem unterminated_quote_accepted (pre rest : List Char) (q : Char)
    (hq : q = squote ∨ q = dquote)
    (hpre : isChained pre = false)
    (hstate : scanState pre = (none, false))
    (hopen : ∀ k, k ≤ rest.length →
      ((rest.take k).foldl qstep (some q, false)).1 = some q) :
    isChained (pre ++ q :: rest) = false := by
  have hqb : q ≠ bslash := by
    rcases hq with h | h <;> subst h <;> decide
  unfold isChained at hpre ⊢
  unfold scanState at hstate
  rw [isChainedAux_append pre (q :: rest) none false hpre, hstate]
  simp only
  have hq2 : (q = squote ∨ q = dquote) := hq
  simp only [isChainedAux, if_neg hqb, if_pos hq2]
  exact isChainedAux_in_quote rest q false hopen

/-- Witness for C10 at the unterminated command `echo "a; rm x`. -/
theorem unterminated_quote_accepted_witness :
    isChained ("echo ".toList ++ dquote :: "a; rm x".toList) = false :=
  unterminated_quote_accepted "echo ".toList "a; rm x".toList dquote
    (Or.inr rfl) (by decide) (by decide) (by decide)

/-- C4: `isNormalExit` returns `true` exactly when the child exited
with status code 0 (a nil wait error or an exit status of 0) or was
terminated by SIGINT or SIGTERM; every other status code, every other
signal, and every unrecognised termination encoding — including a wait
error that is not an exit status — is classified abnormal. -/
theorem isNormalExit_iff (w : WaitResult) :
    isNormalExit w = true ↔
      w = WaitResult.ok ∨ w = WaitResult.exitError (WaitStatus.exited 0) ∨
      w = WaitResult.exitError (WaitStatus.signaled SIGINT) ∨
      w = WaitResult.exitError (WaitStatus.signaled SIGTERM) := by
  cases w with
  | ok => simp [isNormalExit]
  | otherError => simp [isNormalExit]
  | exitErrorNonWait => simp [isNormalExit]
  | exitError ws =>
    cases ws with
    | exited code => simp [isNormalExit]
    | signaled sig => simp [isNormalExit, SIGINT, SIGTERM]
    | other => simp [isNormalExit]

/-- Closed form of the broadcast: the addresses signalled are exactly
the negated pids of the entries still up, in order, and the reported
pids are exactly those up entries whose delivery fails with an error
other than `ESRCH`. -/
lemma shutdown_spec (procs : List Subprocess) (sig : Nat)
    (killRes : Int → Option KillError) :
    (shutdown procs sig killRes).1 =
      (procs.filter (·.up)).map (fun p => -(p.pid : Int)) ∧
    (shutdown procs sig killRes).2 =
      ((procs.filter (·.up)).filter
        (fun p => killRes (-(p.pid : Int)) == some KillError.other)).map (·.pid) := by
  induction procs with
  | nil => exact ⟨rfl, rfl⟩
  | cons p ps ih =>
    by_cases hu : p.up
    · rcases hk : killRes (-(p.pid : Int)) with _ | e
      · constructor
        · simp [shutdown, hu, hk, ih.1]
        · simp [shutdown, hu, hk, ih.2]
      · cases e with
        | esrch =>
          constructor
          · simp [shutdown, hu, hk, ih.1]
          · simp [shutdown, hu, hk, ih.2]
        | other =>
          constructor
          · simp [shutdown, hu, hk, ih.1]
          · simp [shutdown, hu, hk, ih.2]
    · constructor
      · simp [shutdown, hu, ih.1]
      · simp [shutdown, hu, ih.2]

/-- C9: the broadcast signals exactly the subprocess entries still
marked alive, each addressed at its whole process group via the
negated pid; an `ESRCH` delivery failure is silently ignored (absent
from the reports), any other delivery failure is reported, and neither
kind of failure stops the iteration — every still-alive entry is
signalled regardless of the failures among the others. -/
theorem shutdown_targets_and_reports (procs : List Subprocess) (sig : Nat)
    (killRes : Int → Option KillError) :
    (shutdown procs sig killRes).1 =
      (procs.filter (·.up)).map (fun p => -(p.pid : Int)) ∧
    (shutdown procs sig killRes).2 =
      ((procs.filter (·.up)).filter
        (fun p => killRes (-(p.pid : Int)) == some KillError.other)).map (·.pid) :=
  shutdown_spec procs sig killRes

/-- Unfolding `setExited` over a cons cell. -/
lemma setExited_cons (p : Subprocess) (ps : List Subprocess) (pid : Nat) (b : Bool) :
    setExited (p :: ps) pid b =
      (if p.pid = pid then ⟨p.pid, p.command, false, b⟩ else p) :: setExited ps pid b :=
  rfl

/-- Updating a pid that no entry carries changes nothing. -/
lemma setExited_eq_of_not_mem (ps : List Subprocess) (pid : Nat) (b : Bool)
    (h : pid ∉ ps.map (·.pid)) : setExited ps pid b = ps := by
  induction ps with
  | nil => rfl
  | cons p ps ih =>
    simp only [List.map_cons, List.mem_cons, not_or] at h
    rw [setExited_cons, if_neg (fun hc => h.1 hc.symm), ih h.2]

/-- `setExited` preserves the pid column. -/
lemma setExited_pids (procs : List Subprocess) (pid : Nat) (b : Bool) :
    (setExited procs pid b).map (·.pid) = procs.map (·.pid) := by
  induction procs with
  | nil => rfl
  | cons p ps ih =>
    rw [setExited_cons]
    by_cases hc : p.pid = pid <;> simp [hc, ih]

/-- Marking a still-up pid as exited removes exactly that pid from the
up column, provided the pid column has no duplicates. -/
lemma setExited_filter_up (pid : Nat) (b : Bool) :
    ∀ procs : List Subprocess,
    (procs.map (·.pid)).Nodup →
    pid ∈ (procs.filter (·.up)).map (·.pid) →
    ((setExited procs pid b).filter (·.up)).map (·.pid) =
      ((procs.filter (·.up)).map (·.pid)).erase pid := by
  intro procs
  induction procs with
  | nil => intro _ h; simp at h
  | cons p ps ih =>
    intro hnd hmem
    simp only [List.map_cons, List.nodup_cons] at hnd
    obtain ⟨hpnot, hnd⟩ := hnd
    by_cases hu : p.up = true
    · by_cases hpp : p.pid = pid
      · subst hpp
        have hps : setExited ps p.pid b = ps :=
          setExited_eq_of_not_mem ps p.pid b hpnot
        rw [setExited_cons, if_pos rfl, hps]
        simp [List.filter_cons, hu]
      · have hmem2 : pid ∈ (ps.filter (·.up)).map (·.pid) := by
          simp only [List.filter_cons, hu, if_pos, List.map_cons] at hmem
          rcases List.mem_cons.mp hmem with h | h
          · exact absurd h.symm hpp
          · exact h
        rw [setExited_cons, if_neg hpp]
        have h1 : (p :: setExited ps pid b).filter (·.up) =
            p :: (setExited ps pid b).filter (·.up) := by
          simp [List.filter_cons, hu]
        have h2 : (p :: ps).filter (·.up) = p :: ps.filter (·.up) := by
          simp [List.filter_cons, hu]
        rw [h1, h2, List.map_cons, List.map_cons, ih hnd hmem2,
          List.erase_cons_tail (not_beq_of_ne hpp)]
    · have hu2 : p.up = false := by simpa using hu
      have hmem2 : pid ∈ (ps.filter (·.up)).map (·.pid) := by
        simpa [List.filter_cons, hu2] using hmem
      have hhead : (if p.pid = pid then
          (⟨p.pid, p.command, false, b⟩ : Subprocess) else p).up = false := by
        by_cases hpp : p.pid = pid <;> simp [hpp, hu2]
      rw [setExited_cons]
      simp only [List.filter_cons, hhead, hu2]
      exact ih hnd hmem2

/-- Membership in the filtered up column implies membership among all
pids. -/
lemma mem_pids_of_mem_up_pids (procs : List Subprocess) (pid : Nat)
    (h : pid ∈ (procs.filter (·.up)).map (·.pid)) : pid ∈ procs.map (·.pid) := by
  rcases List.mem_map.mp h with ⟨p, hp, he⟩
  exact List.mem_map.mpr ⟨p, List.mem_of_mem_filter hp, he⟩

/-- Classification invariant: after marking the exiting pid down with
the classification of its wait result, every down entry still carries
the classification of its own wait result. -/
lemma setExited_flag_inv (results : Nat → WaitResult) (procs : List Subprocess)
    (pid : Nat)
    (hinv : ∀ p ∈ procs, p.up = false → p.errFlag = !isNormalExit (results p.pid)) :
    ∀ p ∈ setExited procs pid (!isNormalExit (results pid)), p.up = false →
      p.errFlag = !isNormalExit (results p.pid) := by
  intro p hp hup
  unfold setExited at hp
  rcases List.mem_map.mp hp with ⟨q, hq, he⟩
  by_cases hc : q.pid = pid
  · rw [if_pos hc] at he
    subst he
    simp [hc]
  · rw [if_neg hc] at he
    subst he
    exact hinv q hq hup

/-- The subprocess list after a completion event. -/
lemma stepEvent_exit_procs (results : Nat → WaitResult)
    (killRes : Int → Option KillError) (st : LoopState) (pid : Nat) :
    (stepEvent results killRes st (Event.exit pid)).procs =
      setExited st.procs pid (!isNormalExit (results pid)) := by
  simp only [stepEvent]
  split <;> rfl

/-- The counter after a completion event. -/
lemma stepEvent_exit_running (results : Nat → WaitResult)
    (killRes : Int → Option KillError) (st : LoopState) (pid : Nat) :
    (stepEvent results killRes st (Event.exit pid)).running = st.running - 1 := by
  simp only [stepEvent]
  split <;> rfl

/-- A received signal leaves the subprocess list unchanged. -/
lemma stepEvent_signal_procs (results : Nat → WaitResult)
    (killRes : Int → Option KillError) (st : LoopState) (sig : Nat) :
    (stepEvent results killRes st (Event.signal sig)).procs = st.procs := by
  simp only [stepEvent]
  split <;> rfl

/-- A received signal leaves the counter unchanged. -/
lemma stepEvent_signal_running (results : Nat → WaitResult)
    (killRes : Int → Option KillError) (st : LoopState) (sig : Nat) :
    (stepEvent results killRes st (Event.signal sig)).running = st.running := by
  simp only [stepEvent]
  split <;> rfl

/-- After processing any event the `closing` flag is set. -/
lemma stepEvent_closing (results : Nat → WaitResult)
    (killRes : Int → Option KillError) (st : LoopState) (e : Event) :
    (stepEvent results killRes st e).closing = true := by
  cases e with
  | exit pid => simp only [stepEvent]; split <;> rfl
  | signal sig =>
    simp only [stepEvent]
    split
    · assumption
    · rfl

/-- Once `closing` is set, processing an event issues no broadcast. -/
lemma stepEvent_closed_broadcasts (results : Nat → WaitResult)
    (killRes : Int → Option KillError) (st : LoopState) (e : Event)
    (h : st.closing = true) :
    (stepEvent results killRes st e).broadcasts = st.broadcasts := by
  cases e with
  | exit pid => simp [stepEvent, h]
  | signal sig => simp [stepEvent, h]

/-- Before `closing` is set, processing an event issues exactly one
broadcast. -/
lemma stepEvent_open_broadcasts (results : Nat → WaitResult)
    (killRes : Int → Option KillError) (st : LoopState) (e : Event)
    (h : st.closing = false) :
    ∃ x, (stepEvent results killRes st e).broadcasts = st.broadcasts ++ [x] := by
  cases e with
  | exit pid =>
    refine ⟨(SIGTERM,
      (shutdown (setExited st.procs pid (!isNormalExit (results pid)))
        SIGTERM killRes).1), ?_⟩
    simp [stepEvent, h]
  | signal sig =>
    refine ⟨(sig, (shutdown st.procs sig killRes).1), ?_⟩
    simp [stepEvent, h]

/-- Once `closing` is set, draining any number of further events
leaves the broadcast log unchanged. -/
lemma handleEvents_closed (results : Nat → WaitResult)
    (killRes : Int → Option KillError) :
    ∀ (events : List Event) (st : LoopState), st.closing = true →
    (handleEvents results killRes st events).broadcasts = st.broadcasts := by
  intro events
  induction events with
  | nil => intro st h; rfl
  | cons e es ih =>
    intro st h
    simp only [handleEvents]
    split
    · rfl
    · rw [ih (stepEvent results killRes st e) (stepEvent_closing results killRes st e),
        stepEvent_closed_broadcasts results killRes st e h]

/-- Starting with `closing` clear, the loop appends at most one entry
to the broadcast log. -/
lemma handleEvents_once (results : Nat → WaitResult)
    (killRes : Int → Option KillError) :
    ∀ (events : List Event) (st : LoopState), st.closing = false →
    ((handleEvents results killRes st events).broadcasts = st.broadcasts ∨
      ∃ x, (handleEvents results killRes st events).broadcasts = st.broadcasts ++ [x]) := by
  intro events
  induction events with
  | nil => intro st _; exact Or.inl rfl
  | cons e es ih =>
    intro st h
    simp only [handleEvents]
    split
    · exact Or.inl rfl
    · obtain ⟨x, hx⟩ := stepEvent_open_broadcasts results killRes st e h
      refine Or.inr ⟨x, ?_⟩
      rw [handleEvents_closed results killRes es (stepEvent results killRes st e)
        (stepEvent_closing results killRes st e), hx]

/-- With `closing` clear and the counter positive, the loop's whole
broadcast log is whatever processing the first event produces. -/
lemma handleEvents_first_event (results : Nat → WaitResult)
    (killRes : Int → Option KillError) (st : LoopState) (e : Event)
    (es : List Event) (hr : ¬ st.running = 0) :
    (handleEvents results killRes st (e :: es)).broadcasts =
      (stepEvent results killRes st e).broadcasts := by
  simp only [handleEvents]
  rw [if_neg hr]
  exact handleEvents_closed results killRes es (stepEvent results killRes st e)
    (stepEvent_closing results killRes st e)

/-- The launch phase reports a validation error exactly when some
command in the list is chained. -/
lemma startSubprocesses_err (cmds : List Cmd) :
    (startSubprocesses cmds).2 = true ↔ ∃ c ∈ cmds, isChained c.command = true := by
  induction cmds with
  | nil => simp [startSubprocesses]
  | cons c cs ih =>
    by_cases hc : isChained c.command = true
    · simp [startSubprocesses, hc]
    · rcases hs : c.spawnPid with _ | pid
      · simp only [startSubprocesses, hc, if_false, Bool.false_eq_true, hs]
        rw [ih]
        simp [hc]
      · simp only [startSubprocesses, hc, if_false, Bool.false_eq_true, hs]
        rw [ih]
        simp [hc]

/-- Every entry the launch phase records starts up with a clear error
flag. -/
lemma startSubprocesses_entries (cmds : List Cmd) :
    ∀ p ∈ (startSubprocesses cmds).1, p.up = true ∧ p.errFlag = false := by
  induction cmds with
  | nil => intro p hp; simp [startSubprocesses] at hp
  | cons c cs ih =>
    intro p hp
    by_cases hc : isChained c.command = true
    · simp [startSubprocesses, hc] at hp
    · rcases hs : c.spawnPid with _ | pid
      · simp only [startSubprocesses, hc, if_false, hs] at hp
        exact ih p hp
      · simp only [startSubprocesses, hc, if_false, hs, List.mem_cons] at hp
        cases hp with
        | head => exact ⟨rfl, rfl⟩
        | tail _ h2 => exact ih p h2

/-- With no chained command in the list, the launch phase succeeds and
records exactly the commands whose spawn succeeded, in order. -/
lemma startSubprocesses_pairs (cmds : List Cmd)
    (h : ∀ c ∈ cmds, isChained c.command = false) :
    (startSubprocesses cmds).2 = false ∧
    (startSubprocesses cmds).1.map (fun p => (p.command, p.pid)) =
      cmds.filterMap (fun c => c.spawnPid.map (fun pid => (c.command, pid))) := by
  induction cmds with
  | nil => exact ⟨rfl, rfl⟩
  | cons c cs ih =>
    have hc := h c (List.mem_cons_self c cs)
    have ih2 := ih (fun d hd => h d (List.mem_cons_of_mem c hd))
    rcases hs : c.spawnPid with _ | pid
    · simpa [startSubprocesses, hc, hs] using ih2
    · simp only [startSubprocesses, hc, if_false, hs, List.map_cons, List.filterMap_cons]
      exact ⟨ih2.1, by simp [ih2.2]⟩

/-- Launching a concatenation whose first part has no chained command:
the first part's entries are recorded, and the verdict is the second
part's. -/
lemma startSubprocesses_append (pre rest : List Cmd)
    (h : ∀ c ∈ pre, isChained c.command = false) :
    (startSubprocesses (pre ++ rest)).1 =
      (startSubprocesses pre).1 ++ (startSubprocesses rest).1 ∧
    (startSubprocesses (pre ++ rest)).2 = (startSubprocesses rest).2 := by
  induction pre with
  | nil => simp [startSubprocesses]
  | cons c cs ih =>
    have hc := h c (List.mem_cons_self c cs)
    have ih2 := ih (fun d hd => h d (List.mem_cons_of_mem c hd))
    rcases hs : c.spawnPid with _ | pid
    · simpa [startSubprocesses, hc, hs] using ih2
    · simp only [List.cons_append, startSubprocesses, hc, if_false, hs]
      exact ⟨by simp [ih2.1], ih2.2⟩

/-- A chained command at the head aborts the launch phase at once. -/
lemma startSubprocesses_chained_head (c : Cmd) (cs : List Cmd)
    (hc : isChained c.command = true) :
    startSubprocesses (c :: cs) = ([], true) := by
  simp [startSubprocesses, hc]

/-- A signal event contributes no exit pid. -/
lemma exitPids_cons_signal (sig : Nat) (es : List Event) :
    exitPids (Event.signal sig :: es) = exitPids es := rfl

/-- A completion event contributes its pid. -/
lemma exitPids_cons_exit (pid : Nat) (es : List Event) :
    exitPids (Event.exit pid :: es) = pid :: exitPids es := rfl

/-- `hadErrors` holds exactly when some entry's error flag is set. -/
lemma hadErrors_iff (procs : List Subprocess) :
    hadErrors procs = true ↔ ∃ p ∈ procs, p.errFlag = true := by
  simp [hadErrors, List.any_eq_true]

/-- The launch phase succeeds exactly when no command is chained. -/
lemma startSubprocesses_ok (cmds : List Cmd) :
    (startSubprocesses cmds).2 = false ↔ ∀ c ∈ cmds, isChained c.command = false := by
  rw [← Bool.not_eq_true, startSubprocesses_err]
  constructor
  · intro h c hc
    rcases Bool.eq_false_or_eq_true (isChained c.command) with hb | hb
    · exact absurd ⟨c, hc, hb⟩ h
    · exact hb
  · rintro h ⟨c, hc, hb⟩
    rw [h c hc] at hb
    exact absurd hb (by simp)

/-- Main loop lemma: when the completion events carry exactly the pids
of the entries still up (in any order, interleaved with arbitrary
signal events), the loop drains every child: at the end every entry is
down and carries the classification of its own wait result, and the
pid column is unchanged. -/
lemma handleEvents_drains (results : Nat → WaitResult)
    (killRes : Int → Option KillError) :
    ∀ (events : List Event) (st : LoopState),
    (st.procs.map (·.pid)).Nodup →
    st.running = (st.procs.filter (·.up)).length →
    (exitPids events).Perm ((st.procs.filter (·.up)).map (·.pid)) →
    (∀ p ∈ st.procs, p.up = false → p.errFlag = !isNormalExit (results p.pid)) →
    ((∀ p ∈ (handleEvents results killRes st events).procs,
        p.up = false ∧ p.errFlag = !isNormalExit (results p.pid)) ∧
      (handleEvents results killRes st events).procs.map (·.pid) =
        st.procs.map (·.pid)) := by
  intro events
  induction events with
  | nil =>
    intro st hnd hrun hperm hinv
    have hmapnil : (st.procs.filter (·.up)).map (·.pid) = [] :=
      List.perm_nil.mp hperm.symm
    have hfilnil : st.procs.filter (·.up) = [] := List.map_eq_nil_iff.mp hmapnil
    refine ⟨?_, rfl⟩
    intro p hp
    have hupf : p.up = false := by
      rcases Bool.eq_false_or_eq_true p.up with hb | hb
      · have : p ∈ st.procs.filter (·.up) := List.mem_filter.mpr ⟨hp, hb⟩
        rw [hfilnil] at this
        exact absurd this (List.not_mem_nil p)
      · exact hb
    exact ⟨hupf, hinv p hp hupf⟩
  | cons e es ih =>
    intro st hnd hrun hperm hinv
    by_cases hr : st.running = 0
    · have hfilnil : st.procs.filter (·.up) = [] :=
        List.length_eq_zero.mp (by rw [← hrun]; exact hr)
      simp only [handleEvents, if_pos hr]
      refine ⟨?_, by trivial⟩
      intro p hp
      have hupf : p.up = false := by
        rcases Bool.eq_false_or_eq_true p.up with hb | hb
        · have : p ∈ st.procs.filter (·.up) := List.mem_filter.mpr ⟨hp, hb⟩
          rw [hfilnil] at this
          exact absurd this (List.not_mem_nil p)
        · exact hb
      exact ⟨hupf, hinv p hp hupf⟩
    · simp only [handleEvents, if_neg hr]
      cases e with
      | signal sig =>
        have hps := stepEvent_signal_procs results killRes st sig
        have hrs := stepEvent_signal_running results killRes st sig
        have hres := ih (stepEvent results killRes st (Event.signal sig))
          (by rw [hps]; exact hnd)
          (by rw [hrs, hps]; exact hrun)
          (by rw [hps]; exact hperm)
          (by rw [hps]; exact hinv)
        rw [hps] at hres
        exact hres
      | exit pid =>
        have hps := stepEvent_exit_procs results killRes st pid
        have hrs := stepEvent_exit_running results killRes st pid
        have hperm1 : (pid :: exitPids es).Perm
            ((st.procs.filter (·.up)).map (·.pid)) := hperm
        have hpid : pid ∈ (st.procs.filter (·.up)).map (·.pid) :=
          hperm1.subset (List.mem_cons_self pid (exitPids es))
        have hfu := setExited_filter_up pid (!isNormalExit (results pid)) st.procs
          hnd hpid
        have hlen : ((setExited st.procs pid
              (!isNormalExit (results pid))).filter (·.up)).length + 1 =
            (st.procs.filter (·.up)).length := by
          have h2 := List.length_erase_add_one hpid
          calc ((setExited st.procs pid (!isNormalExit (results pid))).filter
                (·.up)).length + 1
              = (((setExited st.procs pid (!isNormalExit (results pid))).filter
                (·.up)).map (·.pid)).length + 1 := by rw [List.length_map]
            _ = (((st.procs.filter (·.up)).map (·.pid)).erase pid).length + 1 := by
                rw [hfu]
            _ = ((st.procs.filter (·.up)).map (·.pid)).length := h2
            _ = (st.procs.filter (·.up)).length := by rw [List.length_map]
        have hperm2 : (exitPids es).Perm
            (((st.procs.filter (·.up)).map (·.pid)).erase pid) :=
          (hperm1.trans (List.perm_cons_erase hpid)).cons_inv
        have hres := ih (stepEvent results killRes st (Event.exit pid))
          (by rw [hps, setExited_pids]; exact hnd)
          (by rw [hrs, hps, hrun, ← hlen]; omega)
          (by rw [hps, hfu]; exact hperm2)
          (by rw [hps]; exact setExited_flag_inv results st.procs pid hinv)
        rw [hps, setExited_pids] at hres
        exact hres

/-- C2: the supervisor's exit code is 2 exactly when no command was
given or some command is chained; 1 exactly when commands were given
and accepted but either no child started or some started child's wait
result classifies abnormal; and 0 exactly when commands were given and
accepted, at least one child started, and every started child's wait
result classifies normal.  The hypotheses say the spawned pids are
distinct and each started child delivers exactly one completion
event. -/
theorem exit_code_classification (cmds : List Cmd) (events : List Event)
    (results : Nat → WaitResult) (killRes : Int → Option KillError)
    (hnd : (((startSubprocesses cmds).1).map (·.pid)).Nodup)
    (hwf : (exitPids events).Perm (((startSubprocesses cmds).1).map (·.pid))) :
    ((run cmds events results killRes).exitCode = 2 ↔
        cmds = [] ∨ ∃ c ∈ cmds, isChained c.command = true) ∧
    ((run cmds events results killRes).exitCode = 1 ↔
        cmds ≠ [] ∧ (∀ c ∈ cmds, isChained c.command = false) ∧
          ((startSubprocesses cmds).1 = [] ∨
            ∃ p ∈ (startSubprocesses cmds).1,
              isNormalExit (results p.pid) = false)) ∧
    ((run cmds events results killRes).exitCode = 0 ↔
        cmds ≠ [] ∧ (∀ c ∈ cmds, isChained c.command = false) ∧
          (startSubprocesses cmds).1 ≠ [] ∧
          ∀ p ∈ (startSubprocesses cmds).1,
            isNormalExit (results p.pid) = true) := by
  by_cases h0 : cmds = []
  · subst h0
    refine ⟨?_, ?_, ?_⟩ <;> simp [run, startSubprocesses]
  · by_cases hv : (startSubprocesses cmds).2 = true
    · have hex := (startSubprocesses_err cmds).mp hv
      have hrun_eq : run cmds events results killRes =
          ⟨2, false, (startSubprocesses cmds).1, []⟩ := by
        simp [run, h0, hv]
      rw [hrun_eq]
      refine ⟨?_, ?_, ?_⟩
      · simpa using Or.inr hex
      · constructor
        · intro h; simp at h
        · rintro ⟨-, hall, -⟩
          rcases hex with ⟨c, hc, hchain⟩
          rw [hall c hc] at hchain
          exact absurd hchain (by simp)
      · constructor
        · intro h; simp at h
        · rintro ⟨-, hall, -⟩
          rcases hex with ⟨c, hc, hchain⟩
          rw [hall c hc] at hchain
          exact absurd hchain (by simp)
    · have hv2 : (startSubprocesses cmds).2 = false := by
        simpa using hv
      have hall : ∀ c ∈ cmds, isChained c.command = false :=
        (startSubprocesses_ok cmds).mp hv2
      have hnochain : ¬ ∃ c ∈ cmds, isChained c.command = true := by
        rintro ⟨c, hc, hchain⟩
        rw [hall c hc] at hchain
        exact absurd hchain (by simp)
      by_cases hs : (startSubprocesses cmds).1 = []
      · have hrun_eq : run cmds events results killRes = ⟨1, false, [], []⟩ := by
          simp [run, h0, hv2, hs]
        rw [hrun_eq]
        refine ⟨?_, ?_, ?_⟩
        · constructor
          · intro h; exact absurd h (by decide)
          · rintro (h | h)
            · exact absurd h h0
            · exact absurd h hnochain
        · simp only [true_iff, iff_true]
          exact ⟨h0, hall, Or.inl hs⟩
        · constructor
          · intro h; exact absurd h (by decide)
          · rintro ⟨-, -, hne, -⟩
            exact absurd hs hne
      · have hfl : (startSubprocesses cmds).1.filter (·.up) =
            (startSubprocesses cmds).1 :=
          List.filter_eq_self.mpr
            (fun p hp => (startSubprocesses_entries cmds p hp).1)
        have hdr := handleEvents_drains results killRes events
          ⟨(startSubprocesses cmds).1, (startSubprocesses cmds).1.length, false, []⟩
          hnd
          (by simp [hfl])
          (by simpa [hfl] using hwf)
          (by
            intro p hp h
            rw [(startSubprocesses_entries cmds p hp).1] at h
            exact absurd h (by simp))
        have hexit : (run cmds events results killRes).exitCode =
            if hadErrors (handleEvents results killRes
              ⟨(startSubprocesses cmds).1, (startSubprocesses cmds).1.length,
                false, []⟩ events).procs
            then 1 else 0 := by
          simp [run, h0, hv2, hs]
        have hkey : hadErrors (handleEvents results killRes
              ⟨(startSubprocesses cmds).1, (startSubprocesses cmds).1.length,
                false, []⟩ events).procs = true ↔
            ∃ p ∈ (startSubprocesses cmds).1,
              isNormalExit (results p.pid) = false := by
          rw [hadErrors_iff]
          constructor
          · rintro ⟨p, hp, hflag⟩
            have h1 := (hdr.1 p hp).2
            rw [h1] at hflag
            have h2 : isNormalExit (results p.pid) = false := by
              simpa using hflag
            have h3 : p.pid ∈ (startSubprocesses cmds).1.map (·.pid) := by
              rw [← hdr.2]
              exact List.mem_map_of_mem _ hp
            rcases List.mem_map.mp h3 with ⟨q, hq, he⟩
            exact ⟨q, hq, by rw [he]; exact h2⟩
          · rintro ⟨q, hq, habn⟩
            have h3 : q.pid ∈ (handleEvents results killRes
                ⟨(startSubprocesses cmds).1, (startSubprocesses cmds).1.length,
                  false, []⟩ events).procs.map (·.pid) := by
              rw [hdr.2]
              exact List.mem_map_of_mem _ hq
            rcases List.mem_map.mp h3 with ⟨p, hp, he⟩
            refine ⟨p, hp, ?_⟩
            rw [(hdr.1 p hp).2, he, habn]
            rfl
        cases hB : hadErrors (handleEvents results killRes
            ⟨(startSubprocesses cmds).1, (startSubprocesses cmds).1.length,
              false, []⟩ events).procs with
        | false =>
          rw [hB] at hexit hkey
          simp only [if_false, Bool.false_eq_true, false_iff] at hexit hkey
          have hallok : ∀ p ∈ (startSubprocesses cmds).1,
              isNormalExit (results p.pid) = true := by
            intro p hp
            rcases Bool.eq_false_or_eq_true (isNormalExit (results p.pid)) with hb | hb
            · exact hb
            · exact absurd ⟨p, hp, hb⟩ hkey
          refine ⟨?_, ?_, ?_⟩
          · rw [hexit]
            constructor
            · intro h; exact absurd h (by decide)
            · rintro (h | h)
              · exact absurd h h0
              · exact absurd h hnochain
          · rw [hexit]
            constructor
            · intro h; exact absurd h (by decide)
            · rintro ⟨-, -, (h | h)⟩
              · exact absurd h hs
              · exact absurd h hkey
          · rw [hexit]
            simp only [true_iff]
            exact ⟨h0, hall, hs, hallok⟩
        | true =>
          rw [hB] at hexit hkey
          simp only [if_true, true_iff] at hexit hkey
          refine ⟨?_, ?_, ?_⟩
          · rw [hexit]
            constructor
            · intro h; exact absurd h (by decide)
            · rintro (h | h)
              · exact absurd h h0
              · exact absurd h hnochain
          · rw [hexit]
            simp only [true_iff]
            exact ⟨h0, hall, Or.inr hkey⟩
          · rw [hexit]
            constructor
            · intro h; exact absurd h (by decide)
            · rintro ⟨-, -, -, hallok⟩
              rcases hkey with ⟨p, hp, habn⟩
              rw [hallok p hp] at habn
              exact absurd habn (by simp)

/-- Witness for C2: one command `ls` that spawns as pid 1 and exits
with status 0 makes the supervisor exit with code 0. -/
theorem exit_code_classification_witness :
    (run [⟨['l', 's'], some 1⟩] [Event.exit 1]
      (fun _ => WaitResult.ok) (fun _ => none)).exitCode = 0 :=
  (exit_code_classification [⟨['l', 's'], some 1⟩] [Event.exit 1]
      (fun _ => WaitResult.ok) (fun _ => none)
      (by decide) (by decide)).2.2.mpr
    (by decide)

/-- C3: across one supervisor run the shutdown broadcast is issued at
most once; moreover, whenever the event loop is entered and at least
one event arrives, it is issued exactly once — triggered by the first
event processed — and every later completion event or signal is
drained without a second broadcast. -/
theorem broadcast_at_most_once (cmds : List Cmd) (events : List Event)
    (results : Nat → WaitResult) (killRes : Int → Option KillError) :
    (run cmds events results killRes).broadcasts.length ≤ 1 ∧
    ((run cmds events results killRes).enteredLoop = true → events ≠ [] →
      (run cmds events results killRes).broadcasts.length = 1) := by
  by_cases h0 : cmds = []
  · simp [run, h0]
  · by_cases hv : (startSubprocesses cmds).2 = true
    · simp [run, h0, hv]
    · have hv2 : (startSubprocesses cmds).2 = false := by simpa using hv
      by_cases hs : (startSubprocesses cmds).1 = []
      · simp [run, h0, hv2, hs]
      · have hlen0 : ¬ (startSubprocesses cmds).1.length = 0 := by
          simpa [List.length_eq_zero] using hs
        have hB := handleEvents_once results killRes events
          ⟨(startSubprocesses cmds).1, (startSubprocesses cmds).1.length,
            false, []⟩ rfl
        constructor
        · rcases hB with h | ⟨x, h⟩ <;> simp [run, h0, hv2, hs, h]
        · intro hloop hne
          rcases events with _ | ⟨e, es⟩
          · exact absurd rfl hne
          · have h1 := handleEvents_first_event results killRes
              ⟨(startSubprocesses cmds).1, (startSubprocesses cmds).1.length,
                false, []⟩ e es hlen0
            obtain ⟨x, hx⟩ := stepEvent_open_broadcasts results killRes
              ⟨(startSubprocesses cmds).1, (startSubprocesses cmds).1.length,
                false, []⟩ e rfl
            simp [run, h0, hv2, hs, h1, hx]

/-- Witness for C3: a run with one child and one completion event
issues exactly one broadcast. -/
theorem broadcast_at_most_once_witness :
    (run [⟨['l', 's'], some 1⟩] [Event.exit 1]
      (fun _ => WaitResult.ok) (fun _ => none)).broadcasts.length = 1 :=
  (broadcast_at_most_once [⟨['l', 's'], some 1⟩] [Event.exit 1]
    (fun _ => WaitResult.ok) (fun _ => none)).2 (by decide) (by decide)

/-- C5 counterexample: with the accepted command `ls` listed before the
chained command `a;b`, the launch phase records (spawns) a subprocess
for `ls` before detecting the chained command — so startup does not
abort before any process is spawned for any command in the batch. -/
theorem batch_spawn_before_reject_counterexample :
    (startSubprocesses [⟨['l', 's'], some 1⟩, ⟨['a', ';', 'b'], some 2⟩]).2
        = true ∧
    ((startSubprocesses [⟨['l', 's'], some 1⟩,
        ⟨['a', ';', 'b'], some 2⟩]).1.map (·.pid)) = [1] := by
  decide

/-- C5 (amended): a command list containing a chained command aborts
the launch phase at the first chained entry: no process is spawned for
it or for any later command — the entries recorded are exactly those
of the prefix before it, which may be nonempty and is left running —
the whole batch is rejected, and the supervisor exits with the
startup-validation code 2, distinct from runtime failures, without
entering the event loop. -/
theorem chained_rejects_batch (pre post : List Cmd) (c : Cmd)
    (hchain : isChained c.command = true)
    (hpre : ∀ d ∈ pre, isChained d.command = false) :
    (startSubprocesses (pre ++ c :: post)).2 = true ∧
    (startSubprocesses (pre ++ c :: post)).1 = (startSubprocesses pre).1 ∧
    ∀ events results killRes,
      (run (pre ++ c :: post) events results killRes).exitCode = 2 ∧
      (run (pre ++ c :: post) events results killRes).enteredLoop = false := by
  have happ := startSubprocesses_append pre (c :: post) hpre
  have hhead := startSubprocesses_chained_head c post hchain
  have h2 : (startSubprocesses (pre ++ c :: post)).2 = true := by
    rw [happ.2, hhead]
  refine ⟨h2, ?_, ?_⟩
  · rw [happ.1, hhead]
    simp
  · intro events results killRes
    have hne : pre ++ c :: post ≠ [] := by simp
    constructor <;> simp [run, hne, h2]

/-- Witness for the amended C5 theorem: `ls` before `a;b`. -/
theorem chained_rejects_batch_witness :
    (run [⟨['l', 's'], some 1⟩, ⟨['a', ';', 'b'], some 2⟩] []
      (fun _ => WaitResult.ok) (fun _ => none)).exitCode = 2 :=
  ((chained_rejects_batch [⟨['l', 's'], some 1⟩] [] ⟨['a', ';', 'b'], some 2⟩
      (by decide) (by decide)).2.2 [] (fun _ => WaitResult.ok)
      (fun _ => none)).1

/-- C7: a failed spawn is non-fatal — the launch phase still attempts
every remaining command and records exactly the successfully spawned
ones in order, so a failed command is simply absent from supervision;
and when at least one command is given and accepted but every spawn
fails, the supervisor exits with code 1 without entering the event
loop. -/
theorem spawn_failure_nonfatal (cmds : List Cmd)
    (hall : ∀ c ∈ cmds, isChained c.command = false) :
    ((startSubprocesses cmds).2 = false ∧
      (startSubprocesses cmds).1.map (fun p => (p.command, p.pid)) =
        cmds.filterMap (fun c => c.spawnPid.map (fun pid => (c.command, pid)))) ∧
    (cmds ≠ [] → (∀ c ∈ cmds, c.spawnPid = none) →
      ∀ events results killRes,
        (run cmds events results killRes).exitCode = 1 ∧
        (run cmds events results killRes).enteredLoop = false) := by
  have hp := startSubprocesses_pairs cmds hall
  refine ⟨hp, ?_⟩
  intro hne hfail events results killRes
  have hempty : (startSubprocesses cmds).1 = [] := by
    have h1 : cmds.filterMap
        (fun c => c.spawnPid.map (fun pid => (c.command, pid))) = [] := by
      rw [List.filterMap_eq_nil_iff]
      intro c hc
      rw [hfail c hc]
      rfl
    have h2 := hp.2
    rw [h1] at h2
    exact List.map_eq_nil_iff.mp h2
  constructor <;> simp [run, hne, hp.1, hempty]

/-- Witness for C7: one accepted command whose spawn fails gives exit
code 1. -/
theorem spawn_failure_nonfatal_witness :
    (run [⟨['l', 's'], none⟩] [] (fun _ => WaitResult.ok)
      (fun _ => none)).exitCode = 1 :=
  ((spawn_failure_nonfatal [⟨['l', 's'], none⟩] (by decide)).2
    (by decide) (by decide) [] (fun _ => WaitResult.ok) (fun _ => none)).1

/-- C8: with no shutdown yet triggered, a termination signal received
by the supervisor broadcasts exactly the received signal — verbatim,
not a fixed one — to the process group of every still-alive child,
while a child completion event broadcasts SIGTERM, the consistent
termination signal, to the groups of the children still alive after
the exiting child is marked down. -/
theorem first_event_broadcast (results : Nat → WaitResult)
    (killRes : Int → Option KillError) (st : LoopState) (events : List Event)
    (hclosing : st.closing = false) (hb : st.broadcasts = [])
    (hr : ¬ st.running = 0) :
    (∀ sig es, events = Event.signal sig :: es →
      (handleEvents results killRes st events).broadcasts =
        [(sig, (st.procs.filter (·.up)).map (fun p => -(p.pid : Int)))]) ∧
    (∀ pid es, events = Event.exit pid :: es →
      (handleEvents results killRes st events).broadcasts =
        [(SIGTERM,
          ((setExited st.procs pid (!isNormalExit (results pid))).filter
            (·.up)).map (fun p => -(p.pid : Int)))]) := by
  constructor
  · intro sig es hev
    subst hev
    rw [handleEvents_first_event results killRes st _ es hr]
    simp [stepEvent, hclosing, hb, (shutdown_spec st.procs sig killRes).1]
  · intro pid es hev
    subst hev
    rw [handleEvents_first_event results killRes st _ es hr]
    simp [stepEvent, hclosing, hb,
      (shutdown_spec (setExited st.procs pid (!isNormalExit (results pid)))
        SIGTERM killRes).1]

/-- Witness for C8: a first event that is signal 9 is forwarded
verbatim to the single live child's process group at address -1. -/
theorem first_event_broadcast_witness :
    (handleEvents (fun _ => WaitResult.ok) (fun _ => none)
      ⟨[⟨1, ['l', 's'], true, false⟩], 1, false, []⟩
      [Event.signal 9]).broadcasts = [(9, [(-1 : Int)])] := by
  have h := (first_event_broadcast (fun _ => WaitResult.ok) (fun _ => none)
    ⟨[⟨1, ['l', 's'], true, false⟩], 1, false, []⟩ [Event.signal 9]
    rfl rfl (by decide)).1 9 [] rfl
  simpa using h

end Multirun
